import Mathlib

/-!
Shallow embedding of `src/main.py` (multi-perspective research assistant)
and verification of the specification claims about it.

Conventions of the embedding:
* Python strings are modelled as Lean `String` / `List Char`; `len` is
  `String.length` (both count code points).
* Python integers are modelled as `Int` where subtraction or division can
  leave the naturals (e.g. `terminal_width // 3 - 2`); Python `//` and
  Lean `Int` `/` agree on the non-negative operands that occur here.
* The external OpenRouter call is an oracle value `Except String String`
  (`.ok text` for a successful completion, `.error msg` for a raised
  exception); functions of the program that can raise are modelled with
  `Except String` bodies, the caught-exception branch applied on top.
* Character classes `\s` and `\d` of the Python `re` module are modelled
  on their ASCII fragment (`pyIsSpace`, `pyIsDigit`), and `str.lower` on
  its ASCII fragment (`pyLower`), which is the fragment exercised by the
  program's own marker texts.
-/

namespace Latent

/-! ### Python character / string primitives -/

/-- ASCII fragment of Python's `\s` character class (and of `str.strip`'s
default whitespace set): space, tab, newline, carriage return, vertical
tab, form feed. -/
def pyIsSpace (c : Char) : Bool :=
  c == ' ' || c == '\t' || c == '\n' || c == '\r' || c == '\x0b' || c == '\x0c'

/-- ASCII fragment of Python's `\d` character class. -/
def pyIsDigit (c : Char) : Bool :=
  '0' ≤ c && c ≤ '9'

/-- Python `str.strip()` on a character list: drop whitespace from both
ends. -/
def pyStrip (l : List Char) : List Char :=
  ((l.dropWhile pyIsSpace).reverse.dropWhile pyIsSpace).reverse

/-- ASCII fragment of Python `str.lower` on one character. -/
def pyLowerChar (c : Char) : Char :=
  if 'A' ≤ c ∧ c ≤ 'Z' then Char.ofNat (c.toNat + 32) else c

/-- ASCII fragment of Python `str.lower`. -/
def pyLower (s : String) : String :=
  String.mk (s.toList.map pyLowerChar)

/-- Helper of `splitWords`: `acc` is the current word, reversed. -/
def splitWordsAux : List Char → List Char → List (List Char)
  | [], acc => if acc.isEmpty then [] else [acc.reverse]
  | c :: cs, acc =>
    if pyIsSpace c then
      if acc.isEmpty then splitWordsAux cs [] else acc.reverse :: splitWordsAux cs []
    else splitWordsAux cs (c :: acc)

/-- Python `str.split()` (no argument): split on whitespace runs, no empty
words. -/
def splitWords (cs : List Char) : List (List Char) :=
  splitWordsAux cs []

/-- Python `text.split()` on strings. -/
def pySplitText (text : String) : List String :=
  (splitWords text.toList).map fun l => String.mk l

/-- Python `str.split('\n')`: split at every newline, keeping empty
pieces (`"".split('\n') == [""]`). -/
def splitOnNl : List Char → List (List Char)
  | [] => [[]]
  | c :: cs =>
    if c == '\n' then [] :: splitOnNl cs
    else
      match splitOnNl cs with
      | [] => [[c]]
      | l :: ls => (c :: l) :: ls

/-! ### The question-extraction regex model (`extract_research_questions`)

The source scans `text` with the pattern
`QUESTION\s+(\d):\s+(.*?)(?=QUESTION\s+\d:|$)` under `re.DOTALL`.
The model below reproduces `re.finditer` on that pattern:
`matchMarkerCore` is the marker `QUESTION\s+\d:` (also the lookahead),
`matchFullAt` additionally requires the `\s+` after the colon and skips
it (the greedy run), and `captureSplit` is the lazy `(.*?)` which stops
at the first position where the lookahead marker matches or where `$`
matches (end of input, or just before a final newline). -/

/-- The literal `QUESTION` of the marker. -/
def questionWord : List Char :=
  ['Q', 'U', 'E', 'S', 'T', 'I', 'O', 'N']

/-- Drop the exact pattern `p` from the front of `l`, or fail. -/
def chopLead : List Char → List Char → Option (List Char)
  | [], cs => some cs
  | _ :: _, [] => none
  | p :: ps, c :: cs => if c == p then chopLead ps cs else none

/-- Match `QUESTION\s+\d:` at the head of `cs`; return the remainder
after the colon. -/
def matchMarkerCore (cs : List Char) : Option (List Char) :=
  match chopLead questionWord cs with
  | none => none
  | some rest =>
    if (rest.takeWhile pyIsSpace).isEmpty then none
    else
      match rest.dropWhile pyIsSpace with
      | d :: ':' :: r => if pyIsDigit d then some r else none
      | _ => none

/-- Match the head of the full pattern `QUESTION\s+(\d):\s+` at `cs`:
the marker followed by at least one whitespace character; return the
position after the greedy whitespace run, where the capture starts. -/
def matchFullAt (cs : List Char) : Option (List Char) :=
  match matchMarkerCore cs with
  | none => none
  | some r =>
    match r with
    | c :: _ => if pyIsSpace c then some (r.dropWhile pyIsSpace) else none
    | [] => none

/-- The zero-width lookahead `(?=QUESTION\s+\d:)`. -/
def lookaheadQ (cs : List Char) : Bool :=
  (matchMarkerCore cs).isSome

/-- The lazy capture `(.*?)(?=QUESTION\s+\d:|$)`: consume characters
until the first position where the lookahead marker matches, or where
`$` matches (end of input, or just before a final newline); return the
captured characters and the remaining suffix. -/
def captureSplit : List Char → List Char × List Char
  | [] => ([], [])
  | c :: cs =>
    if lookaheadQ (c :: cs) || (c == '\n' && cs.isEmpty) then ([], c :: cs)
    else
      match captureSplit cs with
      | (cap, rem) => (c :: cap, rem)

/-- `re.finditer` over the pattern: scan forward for a full match, emit
the stripped capture, continue at the match end.  The fuel argument is a
bound on the number of scanning steps; `primaryScan` supplies the length
of the text, which always suffices because every step consumes at least
one character. -/
def scanAux : Nat → List Char → List (List Char)
  | 0, _ => []
  | _ + 1, [] => []
  | fuel + 1, c :: cs =>
    match matchFullAt (c :: cs) with
    | some rest =>
      match captureSplit rest with
      | (cap, rem) => pyStrip cap :: scanAux fuel rem
    | none => scanAux fuel cs

/-- The primary regex pass of `extract_research_questions`
(`src/main.py:218-224`): the list of stripped captured groups. -/
def primaryScan (cs : List Char) : List (List Char) :=
  scanAux cs.length cs

/-- `startsWithSeq l p`: `l` begins with the pattern `p`
(Python `str.startswith`). -/
def startsWithSeq : List Char → List Char → Bool
  | _, [] => true
  | [], _ :: _ => false
  | c :: cs, p :: ps => c == p && startsWithSeq cs ps

/-- `containsSeq l p`: the pattern `p` occurs contiguously somewhere in
`l`. -/
def containsSeq : List Char → List Char → Bool
  | [], pat => startsWithSeq [] pat
  | c :: cs, pat => startsWithSeq (c :: cs) pat || containsSeq cs pat

/-- Python `line.split(":", 1)[1]`: everything after the first colon
(callers guard that a colon is present). -/
def afterFirstColon (l : List Char) : List Char :=
  (l.dropWhile fun c => !(c == ':')).drop 1

/-- The line-based fallback pass of `extract_research_questions`
(`src/main.py:226-233`): for each line, stripped, that starts with
`QUESTION` and contains a colon, contribute the stripped text after the
first colon. -/
def fallbackScan (cs : List Char) : List (List Char) :=
  (splitOnNl cs).filterMap fun l0 =>
    let l := pyStrip l0
    if startsWithSeq l questionWord && l.contains ':' then
      some (pyStrip (afterFirstColon l))
    else none

/-- `extract_research_questions` (`src/main.py:213-235`): primary regex
pass, line-scan fallback only when the primary pass found nothing, at
most three results. -/
def extract_research_questions (text : String) : List String :=
  ((if (primaryScan text.toList).isEmpty then fallbackScan text.toList
    else primaryScan text.toList).take 3).map String.mk

/-! ### Well-formed marker text for claim C2 -/

/-- One well-formed question segment `QUESTION <d>: <q>\n` as it appears
in a generation that follows the requested format. -/
def questionSegment (d : Char) (q : String) : List Char :=
  questionWord ++ ' ' :: d :: ':' :: ' ' :: (q.toList ++ ['\n'])

/-- A generation consisting of well-formed question segments. -/
def questionsText (qs : List (Char × String)) : List Char :=
  (qs.map fun p => questionSegment p.1 p.2).flatten

/-! ### The external completion call (`get_completion_with_thinking`)

`src/main.py:103-137`.  The outcome of the network call is the oracle
`Except String String`: `.ok text` models a successful
`client.chat.completions.create`, `.error e` models the call raising an
exception whose `str` is `e`.  The function itself never raises: its
`except` branch returns a dictionary whose `content` list has a single
text item. -/

/-- One element of the `content` list built by
`get_completion_with_thinking`: either the simulated thinking item or a
text item. -/
inductive ContentItem
  | thinkingItem (s : String)
  | textItem (s : String)
  deriving DecidableEq

/-- The dictionary returned by `get_completion_with_thinking`. -/
structure CompletionResult where
  thinking : String
  content : List ContentItem
  deriving DecidableEq

/-- The `MODEL` constant (`src/main.py:23`). -/
def modelName : String := "google/gemini-2.0-pro-exp-02-05:free"

/-- `get_completion_with_thinking` (`src/main.py:103-137`) as a function
of the call outcome.  On success the content list is
`[thinking item, text item]`; on a raised exception the caught branch
returns a single text item `Error: <e>`. -/
def get_completion_with_thinking : Except String String → CompletionResult
  | .ok text =>
    ⟨"Analyzing with " ++ modelName ++ "...",
      [.thinkingItem ("Analyzing with " ++ modelName ++ "..."),
       .textItem text]⟩
  | .error e =>
    ⟨"Error: " ++ e, [.textItem ("Error: " ++ e)]⟩

/-- Python `content[i]["text"]` as a fallible access: `IndexError`
(`str` is `"list index out of range"`) when `i` is out of range,
`KeyError` when the element has no `"text"` key. -/
def contentGetText (l : List ContentItem) (i : Nat) : Except String String :=
  match l.get? i with
  | none => .error "list index out of range"
  | some (.textItem s) => .ok s
  | some (.thinkingItem _) => .error "'text'"

/-! ### Question generation (`get_research_questions`) -/

/-- The first user prompt of `get_research_questions`
(`src/main.py:242`). -/
def questionUserPrompt (topic : String) : String :=
  "Generate 3 research questions about: " ++ topic

/-- The stricter retry prompt of `get_research_questions`
(`src/main.py:252`), carrying the explicit formatting instruction. -/
def retryUserPrompt (topic : String) : String :=
  "Generate exactly 3 research questions about: " ++ topic ++
    ". Format them as: 'QUESTION 1: [question]', 'QUESTION 2: [question]', 'QUESTION 3: [question]'."

/-- The placeholder appended while fewer than three questions exist
(`src/main.py:259`). -/
def extraPlaceholder (topic : String) : String :=
  "Additional research direction for " ++ topic

/-- The `while len(questions) < 3` padding loop (`src/main.py:258-259`). -/
def padTo3 (topic : String) (qs : List String) : List String :=
  qs ++ List.replicate (3 - qs.length) (extraPlaceholder topic)

/-- The record returned by `get_research_questions`. -/
structure QuestionsResult where
  thinking : String
  response : String
  questions : List String
  deriving DecidableEq

/-- The `try` body of `get_research_questions` (`src/main.py:239-265`)
as an `Except` computation; `svc` maps the user prompt of a call to its
outcome (the system prompt `QUESTION_GENERATOR_SYSTEM` is fixed for both
calls).  The fallible steps are the two `response["content"][1]["text"]`
subscripts. -/
def getResearchQuestionsBody (topic : String)
    (svc : String → Except String String) : Except String QuestionsResult :=
  (contentGetText
      (get_completion_with_thinking (svc (questionUserPrompt topic))).content 1).bind
    fun t1 =>
      if (extract_research_questions t1).length < 3 then
        (contentGetText
            (get_completion_with_thinking (svc (retryUserPrompt topic))).content 1).bind
          fun t2 =>
            .ok ⟨(get_completion_with_thinking (svc (retryUserPrompt topic))).thinking,
                 t2, (padTo3 topic (extract_research_questions t2)).take 3⟩
      else
        .ok ⟨(get_completion_with_thinking (svc (questionUserPrompt topic))).thinking,
             t1, (padTo3 topic (extract_research_questions t1)).take 3⟩

/-- `get_research_questions` (`src/main.py:237-277`): the `try` body
with the `except` branch (`src/main.py:267-277`) on top, which returns
the three `Research aspect i of <topic>` placeholders and the error text
as the transcript. -/
def get_research_questions (topic : String)
    (svc : String → Except String String) : QuestionsResult :=
  match getResearchQuestionsBody topic svc with
  | .ok r => r
  | .error e =>
    ⟨"Error occurred during question generation", "Error: " ++ e,
      ["Research aspect 1 of " ++ topic,
       "Research aspect 2 of " ++ topic,
       "Research aspect 3 of " ++ topic]⟩

/-! ### Per-task research call (`get_research_response`) -/

/-- The per-task record built by `get_research_response`. -/
structure TaskResult where
  thinking : String
  response : String
  deriving DecidableEq

/-- The `ValueError` message of `src/main.py:290`. -/
def invalidFormatMsg : String := "Invalid response format from API"

/-- The error text substituted at the task boundary
(`src/main.py:298`). -/
def researchErrorMsg (rtype e : String) : String :=
  "Error in " ++ rtype ++ " analysis: " ++ e

/-- `get_research_response` (`src/main.py:279-303`) as a function of the
completion-call outcome and the researcher type.  The shape check
`len(response["content"]) < 2` raises `ValueError`, which — like any
exception of the body — is caught and converted into an error-marked
`TaskResult` whose `thinking` and `response` are both the error text.
(The `not response` / `"content" not in response` parts of the check are
always false for the dictionaries `get_completion_with_thinking`
returns.) -/
def get_research_response (outcome : Except String String)
    (rtype : String) : TaskResult :=
  let r := get_completion_with_thinking outcome
  match
    (if r.content.length < 2 then Except.error invalidFormatMsg
     else contentGetText r.content 1) with
  | .ok s => ⟨r.thinking, s⟩
  | .error e => ⟨researchErrorMsg rtype e, researchErrorMsg rtype e⟩

/-! ### The fan-out grid (`conduct_research`, `src/main.py:305-436`)

`conduct_research` first obtains three questions, then builds nine
tasks (three questions × three perspectives, in that nesting order),
gathers them, and merges the results into rows keyed by each task's own
`question_index` and `perspective`.  The merge is modelled over an
explicit list of `(task_info, result)` pairs so that it can also be run
in an arbitrary settlement order (claim C4); `asyncio.gather` itself
returns the results in task order. -/

/-- The fixed perspective enumeration. -/
inductive Perspective
  | scientific
  | philosophical
  | mathematical
  deriving DecidableEq

/-- The `researcher_type` string of a perspective, as passed to
`get_research_response` (`src/main.py:342-358`). -/
def Perspective.pName : Perspective → String
  | .scientific => "scientific"
  | .philosophical => "philosophical"
  | .mathematical => "mathematical"

/-- One `task_info` entry (`src/main.py:343-362`); the `color` field is
display-only and omitted. -/
structure TaskInfo where
  question_index : Nat
  perspective : Perspective
  deriving DecidableEq

/-- One row of `organized_results` (`src/main.py:387-393`): the question
text and one optional result per perspective (initialised to `None`). -/
structure Row where
  question : String
  scientific : Option TaskResult
  philosophical : Option TaskResult
  mathematical : Option TaskResult
  deriving DecidableEq

/-- `organized_results[q_idx][perspective] = result`
(`src/main.py:395`). -/
def Row.setPersp (r : Row) (p : Perspective) (t : TaskResult) : Row :=
  match p with
  | .scientific => { r with scientific := some t }
  | .philosophical => { r with philosophical := some t }
  | .mathematical => { r with mathematical := some t }

/-- Read one perspective cell of a row. -/
def Row.getPersp (r : Row) : Perspective → Option TaskResult
  | .scientific => r.scientific
  | .philosophical => r.philosophical
  | .mathematical => r.mathematical

/-- The nine `(task_info, task result)` pairs, in the dispatch order of
the source loop (`src/main.py:340-363`); `svc` gives the outcome of each
task's completion call. -/
def mkTaskPairs (questions : List String)
    (svc : Nat → Perspective → Except String String) :
    List (TaskInfo × TaskResult) :=
  (questions.enum.map fun p =>
    [(⟨p.1, .scientific⟩,
        get_research_response (svc p.1 .scientific) "scientific"),
     (⟨p.1, .philosophical⟩,
        get_research_response (svc p.1 .philosophical) "philosophical"),
     (⟨p.1, .mathematical⟩,
        get_research_response (svc p.1 .mathematical) "mathematical")]).flatten

/-- One step of the merge loop (`src/main.py:383-395`): insert the row
for the task's `question_index` if absent (question text looked up by
that index), then store the result under the task's own perspective. -/
def mergeStep (questions : List String) (m : Nat → Option Row)
    (pr : TaskInfo × TaskResult) : Nat → Option Row :=
  fun q =>
    if q = pr.1.question_index then
      let base :=
        match m pr.1.question_index with
        | some r => r
        | none => ⟨questions.getD pr.1.question_index "", none, none, none⟩
      some (base.setPersp pr.1.perspective pr.2)
    else m q

/-- The `organized_results` dictionary after the merge loop, as a map
from question index to row. -/
def mergeMap (questions : List String)
    (l : List (TaskInfo × TaskResult)) : Nat → Option Row :=
  l.foldl (mergeStep questions) fun _ => none

/-- The dictionary's key list in insertion order (Python dicts preserve
insertion order). -/
def mergeKeys (l : List (TaskInfo × TaskResult)) : List Nat :=
  l.foldl
    (fun ks pr =>
      if pr.1.question_index ∈ ks then ks else ks ++ [pr.1.question_index])
    []

/-- `all_results = [organized_results[idx] for idx in sorted(...)]`
(`src/main.py:398`). -/
def assembleGrid (questions : List String)
    (l : List (TaskInfo × TaskResult)) : List Row :=
  (List.insertionSort (· ≤ ·) (mergeKeys l)).map fun k =>
    (mergeMap questions l k).getD ⟨"", none, none, none⟩

/-- The result grid of `conduct_research` (`src/main.py:335-398`) for a
given question list and per-task call outcomes. -/
def conduct_research_grid (questions : List String)
    (svc : Nat → Perspective → Except String String) : List Row :=
  assembleGrid questions (mkTaskPairs questions svc)

/-- Cell access in an assembled grid: row `i`, perspective `p`. -/
def gridCell (g : List Row) (i : Nat) (p : Perspective) : Option TaskResult :=
  (g.get? i).bind fun r => r.getPersp p

/-! ### Column formatter (`format_for_column`, `print_side_by_side`) -/

/-- Python `str.ljust(w)`: right-pad with spaces up to width `w`
(no-op when the string is at least that long or `w` is negative). -/
def ljust (s : String) (w : Int) : String :=
  s ++ String.mk (List.replicate (w - (s.length : Int)).toNat ' ')

/-- A blank column line `" " * w` (`src/main.py:192`). -/
def blankLine (w : Int) : String :=
  String.mk (List.replicate w.toNat ' ')

/-- The word loop of `format_for_column` (`src/main.py:161-177`):
`current` is `current_line`, `lines` the accumulator; the trailing flush
appends the last line only when non-empty. -/
def wrapLoop (width : Int) : List String → String → List String → List String
  | [], current, lines =>
    if current = "" then lines else lines ++ [ljust current width]
  | w :: ws, current, lines =>
    if (current.length : Int) + (w.length : Int) + 1 ≤ width then
      if current = "" then wrapLoop width ws w lines
      else wrapLoop width ws (current ++ " " ++ w) lines
    else wrapLoop width ws w (lines ++ [ljust current width])

/-- `format_for_column` (`src/main.py:159-177`). -/
def format_for_column (text : String) (width : Int) : List String :=
  wrapLoop width (pySplitText text) "" []

/-- `get_terminal_width` (`src/main.py:151-157`): the terminal width
when it can be determined, otherwise the fixed default 120. -/
def get_terminal_width : Option Nat → Nat
  | some w => w
  | none => 120

/-- The three padded column line lists printed by `print_side_by_side`
(`src/main.py:179-211`): each text wrapped at
`terminal_width // 3 - 2`, then the shorter columns padded with blank
lines to the maximum height. -/
def print_side_by_side (t1 t2 t3 : String) (term : Option Nat) :
    List String × List String × List String :=
  let tw := get_terminal_width term
  let cw : Int := (tw : Int) / 3 - 2
  let l1 := format_for_column t1 cw
  let l2 := format_for_column t2 cw
  let l3 := format_for_column t3 cw
  let m := max l1.length (max l2.length l3.length)
  (l1 ++ List.replicate (m - l1.length) (blankLine cw),
   l2 ++ List.replicate (m - l2.length) (blankLine cw),
   l3 ++ List.replicate (m - l3.length) (blankLine cw))

/-- The greedy word-wrap rule as the specification words it (claim C5):
append a word to the running line exactly when the running line length
plus one separating space plus the word length does not exceed the
column width; otherwise close the running line, right-padded with
spaces to the column width, and start a new line with that word; close
the final non-empty line the same way.  Stated as a second definition,
to be compared with the source-derived `wrapLoop`. -/
def specGreedyWrap (width : Int) : List String → String → List String → List String
  | [], line, done =>
    if line = "" then done else done ++ [ljust line width]
  | w :: ws, line, done =>
    if (line.length : Int) + 1 + (w.length : Int) ≤ width then
      specGreedyWrap width ws (if line = "" then w else line ++ " " ++ w) done
    else
      specGreedyWrap width ws w (done ++ [ljust line width])

/-! ### Main loop and persistence (`main`, `save_research_to_json`) -/

/-- What one iteration of the interactive loop does with the entered
topic (`src/main.py:461-470`): terminate on `topic.lower() == 'exit'`,
re-prompt when `topic.strip()` is empty, otherwise run a research
round. -/
inductive LoopAction
  | exitApp
  | reprompt
  | research
  deriving DecidableEq

/-- The branch structure of one loop iteration (`src/main.py:463-473`). -/
def loopStep (topic : String) : LoopAction :=
  if pyLower topic = "exit" then .exitApp
  else if pyStrip topic.toList = [] then .reprompt
  else .research

/-- The artifact path written by `save_research_to_json`
(`src/main.py:142`) for a session id. -/
def sessionFilename (sid : String) : String :=
  "research_outputs/research_session_" ++ sid ++ ".json"

/-- The sequence of artifact paths written by the interactive loop of
`main` (`src/main.py:446-475`) on a list of entered topics: the session
id is generated once before the loop, and every research round ends in
`save_research_to_json(research_data, session_id)`. -/
def mainWrites (sid : String) : List String → List String
  | [] => []
  | t :: ts =>
    match loopStep t with
    | .exitApp => []
    | .reprompt => mainWrites sid ts
    | .research => sessionFilename sid :: mainWrites sid ts

/-- The number of research rounds the loop runs on a list of entered
topics: the inputs before the first terminating one that are neither
terminating nor whitespace-only. -/
def researchRounds (inputs : List String) : Nat :=
  ((inputs.takeWhile fun t => !(loopStep t == LoopAction.exitApp)).filter
    fun t => loopStep t == LoopAction.research).length

/-- Words of a line joined by single spaces (used to state that the
column wrap never splits or merges words). -/
def joinSp : List String → String
  | [] => ""
  | [w] => w
  | w :: ws => w ++ " " ++ joinSp ws

/-- A concrete per-task outcome assignment used by witnesses: the
`(question 1, mathematical)` call raises, every other call succeeds. -/
def exampleSvc : Nat → Perspective → Except String String :=
  fun i p =>
    if i = 1 ∧ p = Perspective.mathematical then .error "boom" else .ok "fine"

/-- A concrete completion oracle used by witnesses: every call succeeds
with an empty generation. -/
def exampleSvcEmpty : String → Except String String :=
  fun _ => .ok ""

/-- A concrete completion oracle used by witnesses: every call raises. -/
def exampleSvcRaise : String → Except String String :=
  fun _ => .error "boom"

/-! ## Theorems -/

/-! ### The interactive loop (claims C8, C9) -/

/-- C9 (counterexample): the loop's termination test is
case-insensitive (`topic.lower() == 'exit'`), so the input `"EXIT"`
terminates the loop although it is not the exact token `"exit"` — the
claim that termination happens exactly on the exact token is false. -/
theorem C9_exact_token_counterexample :
    loopStep "EXIT" = LoopAction.exitApp ∧ "EXIT" ≠ "exit" := by
  decide

/-- C9 (amended): the interactive loop terminates exactly when the
lower-cased input equals `"exit"`; otherwise an input that strips to
empty re-prompts, and every other input starts a research round. -/
theorem C9_loop_cases (t : String) :
    (loopStep t = LoopAction.exitApp ↔ pyLower t = "exit")
    ∧ (loopStep t = LoopAction.reprompt ↔ pyLower t ≠ "exit" ∧ pyStrip t.toList = [])
    ∧ (loopStep t = LoopAction.research ↔ pyLower t ≠ "exit" ∧ pyStrip t.toList ≠ []) := by
  unfold loopStep
  by_cases h1 : pyLower t = "exit" <;> by_cases h2 : pyStrip t.data = [] <;>
    simp [h1, h2, String.toList]

/-- C8 (counterexample): the session id is generated once per process,
before the loop, so two topic submissions `"A"`, `"B"` in one run both
write the artifact at the same session path — the second write
overwrites the first instead of creating a distinct artifact. -/
theorem C8_distinct_artifact_counterexample :
    mainWrites "S" ["A", "B", "exit"] = [sessionFilename "S", sessionFilename "S"]
    ∧ ¬ (mainWrites "S" ["A", "B", "exit"]).Nodup := by
  decide

/-- C8 (amended): all topic submissions of one process run share the
single session id generated at startup: every artifact write of the run
targets the same `session_id`-derived path, once per research round, so
a later submission overwrites the earlier artifact rather than
persisting a distinct one. -/
theorem C8_single_artifact_path (sid : String) (inputs : List String) :
    mainWrites sid inputs =
      List.replicate (researchRounds inputs) (sessionFilename sid) := by
  induction inputs with
  | nil => rfl
  | cons t ts ih =>
    cases h : loopStep t with
    | exitApp =>
      simp [mainWrites, researchRounds, h, List.takeWhile_cons]
    | reprompt =>
      simp only [mainWrites, h]
      rw [ih]
      congr 1
      simp [researchRounds, List.takeWhile_cons, h, List.filter_cons]
    | research =>
      simp only [mainWrites, h]
      rw [ih]
      have hr : researchRounds (t :: ts) = researchRounds ts + 1 := by
        simp [researchRounds, List.takeWhile_cons, h, List.filter_cons]
      rw [hr, List.replicate_succ]

/-! ### Extraction structure (claim C7) -/

/-- C7: the line-scan fallback is consulted exactly when the primary
regex pass yields zero questions, and the extraction result has at most
three elements in every case. -/
theorem C7_fallback_iff (text : String) :
    (extract_research_questions text).length ≤ 3
    ∧ (primaryScan text.toList = [] →
        extract_research_questions text =
          ((fallbackScan text.toList).take 3).map String.mk)
    ∧ (primaryScan text.toList ≠ [] →
        extract_research_questions text =
          ((primaryScan text.toList).take 3).map String.mk) := by
  unfold extract_research_questions
  simp only [String.toList]
  by_cases h : primaryScan text.data = []
  · refine ⟨?_, fun _ => ?_, fun hne => absurd h hne⟩
    · simp [h, List.length_take]
    · simp [h]
  · refine ⟨?_, fun he => absurd he h, fun _ => ?_⟩
    · simp [h, List.length_take]
    · simp [h, List.isEmpty_iff]

/-- Witness for C7 at the marker-free input `"x"`, where the primary
pass yields zero questions and the fallback is used. -/
theorem C7_fallback_iff_witness :
    (extract_research_questions "x").length ≤ 3
    ∧ extract_research_questions "x" =
        ((fallbackScan "x".toList).take 3).map String.mk :=
  ⟨(C7_fallback_iff "x").1, (C7_fallback_iff "x").2.1 (by decide)⟩

/-! ### Question generation (claims C3, C10) -/

/-- The padded question list always has exactly three elements. -/
theorem length_padTo3_take (topic : String) (qs : List String) :
    ((padTo3 topic qs).take 3).length = 3 := by
  simp [padTo3, List.length_take]
  omega

/-- `content[1]["text"]` on a successful completion is the response
text. -/
theorem contentGetText_ok (t : String) :
    contentGetText (get_completion_with_thinking (.ok t)).content 1 = .ok t := rfl

/-- `content[1]["text"]` on a raised completion call is an
`IndexError`: the caught branch built a single-element content list. -/
theorem contentGetText_error (e : String) :
    contentGetText (get_completion_with_thinking (.error e)).content 1 =
      .error "list index out of range" := rfl

/-- C10: `get_research_questions` is total and always returns exactly
three questions; when the completion call itself raises, the caught
exception (the `IndexError` raised by subscripting the one-element
error content) produces the record whose transcript is the error text
and whose questions are the three synthesized placeholders. -/
theorem C10_generation_never_fails (topic : String)
    (svc : String → Except String String) :
    (get_research_questions topic svc).questions.length = 3
    ∧ ∀ e, svc (questionUserPrompt topic) = .error e →
        get_research_questions topic svc =
          ⟨"Error occurred during question generation",
           "Error: list index out of range",
           ["Research aspect 1 of " ++ topic, "Research aspect 2 of " ++ topic,
            "Research aspect 3 of " ++ topic]⟩ := by
  constructor
  · unfold get_research_questions
    cases hb : getResearchQuestionsBody topic svc with
    | error e => simp
    | ok r =>
      unfold getResearchQuestionsBody at hb
      cases h1 : contentGetText
          (get_completion_with_thinking (svc (questionUserPrompt topic))).content 1 with
      | error e => rw [h1] at hb; simp [Except.bind] at hb
      | ok t1 =>
        rw [h1] at hb
        simp only [Except.bind] at hb
        by_cases hlen : (extract_research_questions t1).length < 3
        · rw [if_pos hlen] at hb
          cases h2 : contentGetText
              (get_completion_with_thinking (svc (retryUserPrompt topic))).content 1 with
          | error e => rw [h2] at hb; simp [Except.bind] at hb
          | ok t2 =>
            rw [h2] at hb
            simp only [Except.bind, Except.ok.injEq] at hb
            rw [← hb]
            exact length_padTo3_take topic _
        · rw [if_neg hlen] at hb
          simp only [Except.ok.injEq] at hb
          rw [← hb]
          exact length_padTo3_take topic _
  · intro e he
    unfold get_research_questions getResearchQuestionsBody
    rw [he, contentGetText_error]
    rfl

/-- Witness for C10 on the always-raising oracle. -/
theorem C10_generation_never_fails_witness :
    (get_research_questions "tea" exampleSvcRaise).questions.length = 3
    ∧ get_research_questions "tea" exampleSvcRaise =
        ⟨"Error occurred during question generation",
         "Error: list index out of range",
         ["Research aspect 1 of tea", "Research aspect 2 of tea",
          "Research aspect 3 of tea"]⟩ :=
  ⟨(C10_generation_never_fails "tea" exampleSvcRaise).1,
   (C10_generation_never_fails "tea" exampleSvcRaise).2 "boom" rfl⟩

/-- C3: when the first extraction yields fewer than three questions,
`get_research_questions` re-issues the generation exactly once, with
the stricter formatting prompt, re-runs extraction on the second
response, and pads with topic-referencing placeholders to exactly
three; when the first extraction already yields three, the second
prompt is never used and the first three questions are returned. -/
theorem C3_retry_once_then_pad (topic : String)
    (svc : String → Except String String) (t1 : String)
    (h1 : svc (questionUserPrompt topic) = .ok t1) :
    (get_research_questions topic svc).questions.length = 3
    ∧ ((extract_research_questions t1).length < 3 →
        ∀ t2, svc (retryUserPrompt topic) = .ok t2 →
          get_research_questions topic svc =
            ⟨"Analyzing with " ++ modelName ++ "...", t2,
             (extract_research_questions t2 ++
              List.replicate (3 - (extract_research_questions t2).length)
                ("Additional research direction for " ++ topic)).take 3⟩)
    ∧ (3 ≤ (extract_research_questions t1).length →
        get_research_questions topic svc =
          ⟨"Analyzing with " ++ modelName ++ "...", t1,
           (extract_research_questions t1).take 3⟩) := by
  refine ⟨(C10_generation_never_fails topic svc).1, ?_, ?_⟩
  · intro hlen t2 h2
    unfold get_research_questions getResearchQuestionsBody
    rw [h1, contentGetText_ok]
    simp only [Except.bind, if_pos hlen]
    rw [h2, contentGetText_ok]
    rfl
  · intro hlen
    unfold get_research_questions getResearchQuestionsBody
    rw [h1, contentGetText_ok]
    simp only [Except.bind, if_neg (Nat.not_lt.mpr hlen)]
    have hz : 3 - (extract_research_questions t1).length = 0 := by omega
    simp [padTo3, hz, get_completion_with_thinking]

/-! ### The fan-out grid (claims C1, C4) -/

set_option maxHeartbeats 1000000 in
/-- The grid of `conduct_research` written out explicitly: rows in
ascending question order, each cell the result of the task with that
cell's `(question_index, perspective)`. -/
theorem grid_explicit (q1 q2 q3 : String)
    (svc : Nat → Perspective → Except String String) :
    conduct_research_grid [q1, q2, q3] svc =
      [⟨q1, some (get_research_response (svc 0 .scientific) "scientific"),
           some (get_research_response (svc 0 .philosophical) "philosophical"),
           some (get_research_response (svc 0 .mathematical) "mathematical")⟩,
       ⟨q2, some (get_research_response (svc 1 .scientific) "scientific"),
           some (get_research_response (svc 1 .philosophical) "philosophical"),
           some (get_research_response (svc 1 .mathematical) "mathematical")⟩,
       ⟨q3, some (get_research_response (svc 2 .scientific) "scientific"),
           some (get_research_response (svc 2 .philosophical) "philosophical"),
           some (get_research_response (svc 2 .mathematical) "mathematical")⟩] := by
  simp [conduct_research_grid, assembleGrid, mkTaskPairs, mergeKeys, mergeMap, mergeStep,
    List.enum, List.enumFrom, List.insertionSort, List.orderedInsert, Row.setPersp]

/-- Each in-range grid cell equals the result of the task with that
cell's coordinates. -/
theorem gridCell_explicit (q1 q2 q3 : String)
    (svc : Nat → Perspective → Except String String)
    (i : Nat) (p : Perspective) (hi : i < 3) :
    gridCell (conduct_research_grid [q1, q2, q3] svc) i p =
      some (get_research_response (svc i p) p.pName) := by
  have hg := grid_explicit q1 q2 q3 svc
  interval_cases i <;> cases p <;>
    simp [hg, gridCell, Row.getPersp, Perspective.pName]

/-- Grid rows are ordered by ascending question index. -/
theorem grid_questions_asc (q1 q2 q3 : String)
    (svc : Nat → Perspective → Except String String) :
    (conduct_research_grid [q1, q2, q3] svc).map Row.question = [q1, q2, q3] := by
  rw [grid_explicit]; rfl

/-- Writes to two different perspective cells of a row commute. -/
theorem Row_setPersp_comm (r : Row) {p p' : Perspective} (h : p ≠ p')
    (t t' : TaskResult) :
    (r.setPersp p t).setPersp p' t' = (r.setPersp p' t').setPersp p t := by
  cases r
  cases p <;> cases p' <;> simp_all [Row.setPersp]

/-- Two merge steps whose tasks differ in `(question_index, perspective)`
commute: the dictionary update is keyed by task identity alone. -/
theorem mergeStep_comm (questions : List String) (x y : TaskInfo × TaskResult)
    (hxy : x.1 ≠ y.1 ∨ x = y) (m : Nat → Option Row) :
    mergeStep questions (mergeStep questions m x) y
      = mergeStep questions (mergeStep questions m y) x := by
  by_cases hx : x = y
  · subst hx; rfl
  have hne : x.1 ≠ y.1 := hxy.resolve_right hx
  funext q
  by_cases hqi : x.1.question_index = y.1.question_index
  · have hp : x.1.perspective ≠ y.1.perspective := by
      intro hpp
      apply hne
      cases hx1 : x.1; cases hy1 : y.1
      simp_all
    by_cases hq : q = y.1.question_index
    · subst hq
      simp only [mergeStep, hqi]
      cases hb : m y.1.question_index <;>
        cases hpx : x.1.perspective <;> cases hpy : y.1.perspective <;>
          simp_all [Row.setPersp]
    · simp [mergeStep, hqi, hq]
  · simp only [mergeStep]
    by_cases hqx : q = x.1.question_index <;> by_cases hqy : q = y.1.question_index
    · exact absurd (hqx ▸ hqy) hqi
    · simp only [if_pos hqx, if_neg hqy, if_neg (fun hh => hqi (hh.symm ▸ rfl) : ¬ x.1.question_index = y.1.question_index)]
    · simp only [if_neg hqx, if_pos hqy, if_neg (fun hh => hqi (hh ▸ rfl) : ¬ y.1.question_index = x.1.question_index)]
    · simp only [if_neg hqx, if_neg hqy]

/-- The task keys of the nine dispatched tasks, independent of outcomes. -/
theorem mkTaskPairs_keys (q1 q2 q3 : String)
    (svc : Nat → Perspective → Except String String) :
    (mkTaskPairs [q1, q2, q3] svc).map (fun pr => pr.1) =
      [⟨0, .scientific⟩, ⟨0, .philosophical⟩, ⟨0, .mathematical⟩,
       ⟨1, .scientific⟩, ⟨1, .philosophical⟩, ⟨1, .mathematical⟩,
       ⟨2, .scientific⟩, ⟨2, .philosophical⟩, ⟨2, .mathematical⟩] := by
  simp [mkTaskPairs, List.enum, List.enumFrom]

/-- Membership in the key accumulator of `mergeKeys`. -/
theorem mem_mergeKeys_foldl (l : List (TaskInfo × TaskResult)) :
    ∀ (acc : List Nat) (k : Nat),
      (k ∈ l.foldl
          (fun ks pr =>
            if pr.1.question_index ∈ ks then ks else ks ++ [pr.1.question_index])
          acc)
      ↔ k ∈ acc ∨ k ∈ l.map fun pr => pr.1.question_index := by
  induction l with
  | nil => simp
  | cons x xs ih =>
    intro acc k
    simp only [List.foldl_cons, List.map_cons, List.mem_cons]
    rw [ih]
    by_cases h : x.1.question_index ∈ acc
    · simp only [if_pos h]
      constructor
      · rintro (ha | hm)
        · exact .inl ha
        · exact .inr (.inr hm)
      · rintro (ha | rfl | hm)
        · exact .inl ha
        · exact .inl h
        · exact .inr hm
    · simp only [if_neg h, List.mem_append, List.mem_singleton]
      constructor
      · rintro ((ha | hk) | hm)
        · exact .inl ha
        · exact .inr (.inl hk)
        · exact .inr (.inr hm)
      · rintro (ha | hk | hm)
        · exact .inl (.inl ha)
        · exact .inl (.inr hk)
        · exact .inr hm

/-- The key list accumulated by `mergeKeys` never repeats a key. -/
theorem nodup_mergeKeys_foldl (l : List (TaskInfo × TaskResult)) :
    ∀ acc : List Nat, acc.Nodup →
      (l.foldl
          (fun ks pr =>
            if pr.1.question_index ∈ ks then ks else ks ++ [pr.1.question_index])
          acc).Nodup := by
  induction l with
  | nil => exact fun acc h => h
  | cons x xs ih =>
    intro acc hacc
    simp only [List.foldl_cons]
    by_cases h : x.1.question_index ∈ acc
    · rw [if_pos h]; exact ih acc hacc
    · rw [if_neg h]
      exact ih _ (by simp [List.nodup_append, hacc, h])

/-- Permuting the settlement order permutes the key list. -/
theorem mergeKeys_perm {l l' : List (TaskInfo × TaskResult)} (hp : l.Perm l') :
    (mergeKeys l).Perm (mergeKeys l') := by
  have d1 : (mergeKeys l).Nodup := nodup_mergeKeys_foldl l [] List.nodup_nil
  have d2 : (mergeKeys l').Nodup := nodup_mergeKeys_foldl l' [] List.nodup_nil
  rw [List.perm_ext_iff_of_nodup d1 d2]
  intro k
  unfold mergeKeys
  rw [mem_mergeKeys_foldl, mem_mergeKeys_foldl]
  simp only [List.not_mem_nil, false_or]
  exact (hp.map _).mem_iff

/-- The merged dictionary is invariant under permutation of the
settlement order, as long as no two settled tasks share a
`(question_index, perspective)` key. -/
theorem mergeMap_perm (questions : List String)
    {l l' : List (TaskInfo × TaskResult)} (hp : l.Perm l')
    (hnd : (l.map fun pr => pr.1).Nodup) :
    mergeMap questions l = mergeMap questions l' := by
  unfold mergeMap
  apply hp.foldl_eq'
  intro x hx y hy z
  apply mergeStep_comm
  by_cases hxy : x = y
  · exact .inr hxy
  · exact .inl fun h1 => hxy (List.inj_on_of_nodup_map hnd hx hy h1)

/-- The assembled grid is invariant under permutation of the settlement
order. -/
theorem assembleGrid_perm (questions : List String)
    {l l' : List (TaskInfo × TaskResult)} (hp : l.Perm l')
    (hnd : (l.map fun pr => pr.1).Nodup) :
    assembleGrid questions l = assembleGrid questions l' := by
  unfold assembleGrid
  rw [mergeMap_perm questions hp hnd]
  congr 1
  exact List.eq_of_perm_of_sorted
    ((List.perm_insertionSort _ _).trans
      ((mergeKeys_perm hp).trans (List.perm_insertionSort _ _).symm))
    (List.sorted_insertionSort _ _) (List.sorted_insertionSort _ _)

/-- C1: for any three questions and any per-task call outcomes, the
grid has exactly three rows in question order, every cell is populated
(non-null) with exactly its own task's result, a failing call is
converted at its own task boundary into an error-marked result whose
response text is the error message, and a cell never depends on any
sibling task's outcome. -/
theorem C1_grid_total_and_isolated (q1 q2 q3 : String)
    (svc svc' : Nat → Perspective → Except String String) :
    (conduct_research_grid [q1, q2, q3] svc).length = 3
    ∧ (conduct_research_grid [q1, q2, q3] svc).map Row.question = [q1, q2, q3]
    ∧ (∀ i p, i < 3 →
        gridCell (conduct_research_grid [q1, q2, q3] svc) i p =
          some (get_research_response (svc i p) p.pName))
    ∧ (∀ i p e, svc i p = .error e →
        get_research_response (svc i p) p.pName =
          ⟨researchErrorMsg p.pName invalidFormatMsg,
           researchErrorMsg p.pName invalidFormatMsg⟩)
    ∧ (∀ i p, i < 3 → svc i p = svc' i p →
        gridCell (conduct_research_grid [q1, q2, q3] svc) i p =
          gridCell (conduct_research_grid [q1, q2, q3] svc') i p) := by
  refine ⟨by rw [grid_explicit]; rfl, by rw [grid_explicit]; rfl,
    fun i p hi => gridCell_explicit q1 q2 q3 svc i p hi, ?_, ?_⟩
  · intro i p e he
    unfold get_research_response
    rw [he]
    cases p <;> rfl
  · intro i p hi he
    rw [gridCell_explicit q1 q2 q3 svc i p hi,
      gridCell_explicit q1 q2 q3 svc' i p hi, he]

/-- Witness for C1 at a run where only the `(question 1, mathematical)`
call fails. -/
theorem C1_grid_total_and_isolated_witness :
    gridCell (conduct_research_grid ["a", "b", "c"] exampleSvc) 1
        Perspective.mathematical =
      some (get_research_response (exampleSvc 1 Perspective.mathematical)
        "mathematical")
    ∧ get_research_response (exampleSvc 1 Perspective.mathematical)
        Perspective.mathematical.pName =
      ⟨researchErrorMsg "mathematical" invalidFormatMsg,
       researchErrorMsg "mathematical" invalidFormatMsg⟩ := by
  have h := C1_grid_total_and_isolated "a" "b" "c" exampleSvc exampleSvc
  refine ⟨?_, ?_⟩
  · have := h.2.2.1 1 Perspective.mathematical (by omega)
    simpa [Perspective.pName] using this
  · have := h.2.2.2.1 1 Perspective.mathematical "boom" rfl
    simpa [Perspective.pName] using this

/-- C4: the assembled grid depends only on task identity, not on
settlement order — merging any permutation of the nine
`(task, result)` pairs yields the same grid as the dispatch order, each
cell equals the result of the task with its coordinates, and rows are
ordered by ascending question index. -/
theorem C4_order_independent_grid (q1 q2 q3 : String)
    (svc : Nat → Perspective → Except String String)
    (arrival : List (TaskInfo × TaskResult))
    (hp : arrival.Perm (mkTaskPairs [q1, q2, q3] svc)) :
    assembleGrid [q1, q2, q3] arrival = conduct_research_grid [q1, q2, q3] svc
    ∧ (∀ i p, i < 3 →
        gridCell (conduct_research_grid [q1, q2, q3] svc) i p =
          some (get_research_response (svc i p) p.pName))
    ∧ (conduct_research_grid [q1, q2, q3] svc).map Row.question = [q1, q2, q3] := by
  refine ⟨?_, fun i p hi => gridCell_explicit q1 q2 q3 svc i p hi,
    grid_questions_asc q1 q2 q3 svc⟩
  have hnd : ((mkTaskPairs [q1, q2, q3] svc).map fun pr => pr.1).Nodup := by
    rw [mkTaskPairs_keys]
    decide
  exact assembleGrid_perm [q1, q2, q3] hp ((hp.map _).nodup_iff.mpr hnd)

/-- Witness for C4: settling the nine tasks in reverse order yields the
same grid. -/
theorem C4_order_independent_grid_witness :
    assembleGrid ["a", "b", "c"] ((mkTaskPairs ["a", "b", "c"] exampleSvc).reverse) =
      conduct_research_grid ["a", "b", "c"] exampleSvc
    ∧ (conduct_research_grid ["a", "b", "c"] exampleSvc).map Row.question =
        ["a", "b", "c"] := by
  have h := C4_order_independent_grid "a" "b" "c" exampleSvc _
    ((mkTaskPairs ["a", "b", "c"] exampleSvc).reverse_perm)
  exact ⟨h.1, h.2.2⟩

/-- Witness for C3 on the empty-generation oracle: both extractions
yield zero questions, so the result is three placeholders. -/
theorem C3_retry_once_then_pad_witness :
    (get_research_questions "tea" exampleSvcEmpty).questions.length = 3
    ∧ get_research_questions "tea" exampleSvcEmpty =
        ⟨"Analyzing with " ++ modelName ++ "...", "",
         (extract_research_questions "" ++
          List.replicate (3 - (extract_research_questions "").length)
            ("Additional research direction for tea")).take 3⟩ :=
  ⟨(C3_retry_once_then_pad "tea" exampleSvcEmpty "" rfl).1,
   (C3_retry_once_then_pad "tea" exampleSvcEmpty "" rfl).2.1 (by decide) "" rfl⟩

/-! ### Column formatter (claims C5, C6) -/

/-- The words produced by Python `split()` are never empty. -/
theorem splitWordsAux_ne_nil :
    ∀ (cs acc : List Char), ∀ w ∈ splitWordsAux cs acc, w ≠ [] := by
  intro cs
  induction cs with
  | nil =>
    intro acc w hw
    unfold splitWordsAux at hw
    by_cases h : acc.isEmpty
    · simp [h] at hw
    · simp only [h, Bool.false_eq_true, if_false, List.mem_singleton] at hw
      subst hw
      simp only [ne_eq, List.reverse_eq_nil_iff]
      exact fun he => h (by simp [he])
  | cons c cs ih =>
    intro acc w hw
    unfold splitWordsAux at hw
    by_cases hs : pyIsSpace c
    · rw [if_pos hs] at hw
      by_cases h : acc.isEmpty
      · rw [if_pos h] at hw
        exact ih [] w hw
      · rw [if_neg h] at hw
        rcases List.mem_cons.mp hw with hw | hw
        · subst hw
          simp only [ne_eq, List.reverse_eq_nil_iff]
          exact fun he => h (by simp [he])
        · exact ih [] w hw
    · rw [if_neg hs] at hw
      exact ih (c :: acc) w hw

/-- The words produced by Python `split()` contain no whitespace. -/
theorem splitWordsAux_no_space :
    ∀ (cs acc : List Char), (∀ c ∈ acc, pyIsSpace c = false) →
      ∀ w ∈ splitWordsAux cs acc, ∀ c ∈ w, pyIsSpace c = false := by
  intro cs
  induction cs with
  | nil =>
    intro acc hacc w hw
    unfold splitWordsAux at hw
    by_cases h : acc.isEmpty
    · simp [h] at hw
    · simp only [h, Bool.false_eq_true, if_false, List.mem_singleton] at hw
      subst hw
      intro c hc
      exact hacc c (List.mem_reverse.mp hc)
  | cons c0 cs ih =>
    intro acc hacc w hw
    unfold splitWordsAux at hw
    by_cases hs : pyIsSpace c0
    · rw [if_pos hs] at hw
      by_cases h : acc.isEmpty
      · rw [if_pos h] at hw
        exact ih [] (by simp) w hw
      · rw [if_neg h] at hw
        rcases List.mem_cons.mp hw with hw | hw
        · subst hw
          intro c hc
          exact hacc c (List.mem_reverse.mp hc)
        · exact ih [] (by simp) w hw
    · rw [if_neg hs] at hw
      refine ih (c0 :: acc) ?_ w hw
      intro c hc
      rcases List.mem_cons.mp hc with rfl | hc
      · exact Bool.not_eq_true _ ▸ (by simpa using hs)
      · exact hacc c hc

/-- Every word of `pySplitText` is non-empty and whitespace-free. -/
theorem pySplitText_good (t : String) :
    ∀ w ∈ pySplitText t, w ≠ "" ∧ ∀ c ∈ w.data, pyIsSpace c = false := by
  intro w hw
  unfold pySplitText at hw
  rcases List.mem_map.mp hw with ⟨l, hl, rfl⟩
  refine ⟨?_, ?_⟩
  · intro he
    have : l = [] := by
      have := congrArg String.data he
      simpa using this
    exact splitWordsAux_ne_nil _ [] l hl this
  · intro c hc
    exact splitWordsAux_no_space _ [] (by simp) l hl c hc

/-- `wrapLoop` agrees with the specification's wording of the greedy
rule. -/
theorem wrapLoop_eq_specGreedyWrap (width : Int) :
    ∀ (ws : List String) (cur : String) (lines : List String),
      wrapLoop width ws cur lines = specGreedyWrap width ws cur lines := by
  intro ws
  induction ws with
  | nil => intro cur lines; rfl
  | cons w ws ih =>
    intro cur lines
    simp only [wrapLoop, specGreedyWrap]
    have hc : ((cur.length : Int) + (w.length : Int) + 1 ≤ width)
        ↔ ((cur.length : Int) + 1 + (w.length : Int) ≤ width) := by omega
    by_cases h : (cur.length : Int) + (w.length : Int) + 1 ≤ width
    · simp only [if_pos h, if_pos (hc.mp h)]
      by_cases hcur : cur = "" <;> simp [hcur, ih]
    · simp only [if_neg h, if_neg (fun hh => h (hc.mpr hh))]
      exact ih _ _

/-- `ljust` does not change a string at least as long as the width. -/
theorem ljust_of_le {s : String} {w : Int} (h : w ≤ (s.length : Int)) :
    ljust s w = s := by
  unfold ljust
  have : (w - (s.length : Int)).toNat = 0 := by omega
  rw [this]
  simp

/-- Lines already accumulated stay in the output of `wrapLoop`. -/
theorem wrapLoop_lines_grow (width : Int) :
    ∀ (ws : List String) (cur : String) (lines : List String),
      ∀ l ∈ lines, l ∈ wrapLoop width ws cur lines := by
  intro ws
  induction ws with
  | nil =>
    intro cur lines l hl
    unfold wrapLoop
    by_cases h : cur = ""
    · rwa [if_pos h]
    · rw [if_neg h]
      exact List.mem_append_left _ hl
  | cons w ws ih =>
    intro cur lines l hl
    unfold wrapLoop
    by_cases h : (cur.length : Int) + (w.length : Int) + 1 ≤ width
    · rw [if_pos h]
      by_cases hcur : cur = ""
      · rw [if_pos hcur]; exact ih _ _ l hl
      · rw [if_neg hcur]; exact ih _ _ l hl
    · rw [if_neg h]
      exact ih _ _ l (List.mem_append_left _ hl)

/-- A running line longer than the column width ends up, unchanged, as
one of the output lines. -/
theorem wrapLoop_cur_mem (width : Int) :
    ∀ (ws : List String) (cur : String) (lines : List String),
      cur ≠ "" → width < (cur.length : Int) →
      cur ∈ wrapLoop width ws cur lines := by
  intro ws
  cases ws with
  | nil =>
    intro cur lines hne hlong
    unfold wrapLoop
    rw [if_neg hne, ljust_of_le (le_of_lt hlong)]
    exact List.mem_append_right _ (List.mem_singleton_self _)
  | cons w ws =>
    intro cur lines hne hlong
    unfold wrapLoop
    have h : ¬ ((cur.length : Int) + (w.length : Int) + 1 ≤ width) := by
      have : (0 : Int) ≤ (w.length : Int) := Int.ofNat_nonneg _
      omega
    rw [if_neg h, ljust_of_le (le_of_lt hlong)]
    exact wrapLoop_lines_grow width ws w _ cur
      (List.mem_append_right _ (List.mem_singleton_self _))

/-- A word longer than the column width appears, untruncated and alone,
as one of the output lines. -/
theorem wrapLoop_long_word_mem (width : Int) :
    ∀ (ws : List String) (cur : String) (lines : List String) (w : String),
      w ∈ ws → w ≠ "" → width < (w.length : Int) →
      w ∈ wrapLoop width ws cur lines := by
  intro ws
  induction ws with
  | nil => intro cur lines w hw; exact absurd hw (List.not_mem_nil w)
  | cons w0 ws ih =>
    intro cur lines w hw hne hlong
    rcases List.mem_cons.mp hw with rfl | hw
    · unfold wrapLoop
      have h : ¬ ((cur.length : Int) + (w.length : Int) + 1 ≤ width) := by
        have : (0 : Int) ≤ (cur.length : Int) := Int.ofNat_nonneg _
        omega
      rw [if_neg h]
      exact wrapLoop_cur_mem width ws w _ hne hlong
    · unfold wrapLoop
      by_cases h : (cur.length : Int) + (w0.length : Int) + 1 ≤ width
      · rw [if_pos h]
        by_cases hcur : cur = ""
        · rw [if_pos hcur]; exact ih _ _ w hw hne hlong
        · rw [if_neg hcur]; exact ih _ _ w hw hne hlong
      · rw [if_neg h]
        exact ih _ _ w hw hne hlong

/-- Splitting an all-space tail flushes the pending word. -/
theorem splitWordsAux_spaces (n : Nat) (acc : List Char) :
    splitWordsAux (List.replicate n ' ') acc =
      if acc.isEmpty then [] else [acc.reverse] := by
  induction n generalizing acc with
  | zero => rfl
  | succ n ih =>
    rw [List.replicate_succ]
    have hstep : splitWordsAux (' ' :: List.replicate n ' ') acc =
        if acc.isEmpty then splitWordsAux (List.replicate n ' ') []
        else acc.reverse :: splitWordsAux (List.replicate n ' ') [] := rfl
    rw [hstep]
    by_cases h : acc.isEmpty
    · rw [if_pos h, if_pos h, ih]; rfl
    · rw [if_neg h, if_neg h, ih]; rfl

/-- Splitting skips over a whitespace-free chunk, accumulating it. -/
theorem splitWordsAux_nonspace (w : List Char)
    (hw : ∀ c ∈ w, pyIsSpace c = false) (cs : List Char) :
    ∀ acc, splitWordsAux (w ++ cs) acc = splitWordsAux cs (w.reverse ++ acc) := by
  induction w with
  | nil => intro acc; simp
  | cons c w ih =>
    intro acc
    have hstep : splitWordsAux ((c :: w) ++ cs) acc =
        if pyIsSpace c then
          (if acc.isEmpty then splitWordsAux (w ++ cs) []
           else acc.reverse :: splitWordsAux (w ++ cs) [])
        else splitWordsAux (w ++ cs) (c :: acc) := rfl
    rw [hstep, if_neg (by simp [hw c (List.mem_cons_self c w)])]
    rw [ih (fun c' hc => hw c' (List.mem_cons_of_mem _ hc)) (c :: acc)]
    congr 1
    simp

/-- Re-splitting (at character level) a space-joined, space-padded line
recovers the exact word sequence. -/
theorem splitWords_join_pad :
    ∀ (ws : List String),
      (∀ w ∈ ws, w ≠ "" ∧ ∀ c ∈ w.data, pyIsSpace c = false) →
      ∀ m : Nat,
        splitWordsAux ((joinSp ws).data ++ List.replicate m ' ') [] =
          ws.map String.data := by
  intro ws
  induction ws with
  | nil =>
    intro _ m
    rw [show (joinSp []).data = [] from rfl, List.nil_append, splitWordsAux_spaces]
    rfl
  | cons w ws ih =>
    intro h m
    obtain ⟨hne, hnosp⟩ := h w (List.mem_cons_self w ws)
    have hwrev : w.data.reverse.isEmpty = false := by
      cases hd : w.data with
      | nil => exact absurd (String.ext hd) hne
      | cons c l => simp [hd]
    cases ws with
    | nil =>
      rw [show (joinSp [w]).data = w.data from rfl]
      rw [splitWordsAux_nonspace w.data hnosp _ [], List.append_nil,
        splitWordsAux_spaces, hwrev]
      simp
    | cons w' ws' =>
      have hj : (joinSp (w :: w' :: ws')).data =
          (w.data ++ [' ']) ++ (joinSp (w' :: ws')).data := rfl
      rw [hj, List.append_assoc, List.append_assoc,
        splitWordsAux_nonspace w.data hnosp _ [], List.append_nil]
      have hstep : splitWordsAux
          ([' '] ++ ((joinSp (w' :: ws')).data ++ List.replicate m ' '))
          w.data.reverse =
        if w.data.reverse.isEmpty then
          splitWordsAux ((joinSp (w' :: ws')).data ++ List.replicate m ' ') []
        else w.data.reverse.reverse ::
          splitWordsAux ((joinSp (w' :: ws')).data ++ List.replicate m ' ') [] := rfl
      rw [hstep, hwrev]
      simp only [Bool.false_eq_true, if_false, List.reverse_reverse]
      rw [ih (fun x hx => h x (List.mem_cons_of_mem _ hx)) m]
      rfl

/-- Re-splitting a space-joined, space-padded line recovers the exact
word sequence (words are never split, truncated, or merged). -/
theorem pySplitText_joinSp_pad (ws : List String)
    (hws : ∀ w ∈ ws, w ≠ "" ∧ ∀ c ∈ w.data, pyIsSpace c = false)
    (m : Nat) :
    pySplitText (joinSp ws ++ String.mk (List.replicate m ' ')) = ws := by
  unfold pySplitText splitWords
  have hd : (joinSp ws ++ String.mk (List.replicate m ' ')).toList
      = (joinSp ws).data ++ List.replicate m ' ' := rfl
  rw [hd, splitWords_join_pad ws hws m, List.map_map]
  exact List.map_id ws

/-- Appending one more word to a non-empty space-joined line. -/
theorem joinSp_snoc (ws : List String) (hne : ws ≠ []) (w : String) :
    joinSp (ws ++ [w]) = joinSp ws ++ " " ++ w := by
  induction ws with
  | nil => exact absurd rfl hne
  | cons x ws ih =>
    cases ws with
    | nil => rfl
    | cons y ws' =>
      have h1 : joinSp ((x :: y :: ws') ++ [w]) =
          x ++ " " ++ joinSp ((y :: ws') ++ [w]) := rfl
      rw [h1, ih (by simp)]
      rw [show joinSp (x :: y :: ws') = x ++ " " ++ joinSp (y :: ws') from rfl]
      simp [String.append_assoc]

/-- A space-join of non-empty words is empty exactly when the word list
is. -/
theorem joinSp_eq_empty (ws : List String)
    (h : ∀ w ∈ ws, w ≠ "") : joinSp ws = "" ↔ ws = [] := by
  cases ws with
  | nil => exact ⟨fun _ => rfl, fun _ => rfl⟩
  | cons w ws =>
    constructor
    · intro he
      exfalso
      cases ws with
      | nil => exact h w (List.mem_cons_self w []) he
      | cons w' ws' =>
        have hd : (joinSp (w :: w' :: ws')).data = [] := by rw [he]
        rw [show joinSp (w :: w' :: ws') = w ++ " " ++ joinSp (w' :: ws')
          from rfl] at hd
        simp at hd
    · intro he
      exact absurd he (List.cons_ne_nil w ws)

/-- The output of the wrap loop carries exactly the words of the input,
in order: the pending line is the join of `curW`, and the final output's
words are the accumulated lines' words, then `curW`, then the remaining
words. -/
theorem wrapLoop_words (width : Int) :
    ∀ (ws : List String) (curW : List String) (lines : List String),
      (∀ w ∈ curW, w ≠ "" ∧ ∀ c ∈ w.data, pyIsSpace c = false) →
      (∀ w ∈ ws, w ≠ "" ∧ ∀ c ∈ w.data, pyIsSpace c = false) →
      ((wrapLoop width ws (joinSp curW) lines).map pySplitText).flatten =
        ((lines.map pySplitText).flatten) ++ curW ++ ws := by
  intro ws
  induction ws with
  | nil =>
    intro curW lines hcur _
    unfold wrapLoop
    by_cases h : joinSp curW = ""
    · rw [if_pos h]
      have : curW = [] := (joinSp_eq_empty curW fun w hw => (hcur w hw).1).mp h
      simp [this]
    · rw [if_neg h]
      unfold ljust
      simp only [List.map_append, List.map_cons, List.map_nil, List.flatten_append]
      rw [pySplitText_joinSp_pad curW hcur]
      simp
  | cons w ws ih =>
    intro curW lines hcur hws
    obtain ⟨hwne, hwnosp⟩ := hws w (List.mem_cons_self w ws)
    have hws' : ∀ x ∈ ws, x ≠ "" ∧ ∀ c ∈ x.data, pyIsSpace c = false :=
      fun x hx => hws x (List.mem_cons_of_mem _ hx)
    unfold wrapLoop
    by_cases h : ((joinSp curW).length : Int) + (w.length : Int) + 1 ≤ width
    · rw [if_pos h]
      by_cases hc : joinSp curW = ""
      · rw [if_pos hc]
        have hcnil : curW = [] := (joinSp_eq_empty curW fun x hx => (hcur x hx).1).mp hc
        have := ih [w] lines
          (by intro x hx; rw [List.mem_singleton] at hx; subst hx; exact ⟨hwne, hwnosp⟩)
          hws'
        rw [show joinSp [w] = w from rfl] at this
        rw [this, hcnil]
        simp
      · rw [if_neg hc]
        have hcw : curW ≠ [] := by
          intro hh; exact hc (by rw [hh]; rfl)
        have := ih (curW ++ [w]) lines
          (by
            intro x hx
            rcases List.mem_append.mp hx with hx | hx
            · exact hcur x hx
            · rw [List.mem_singleton] at hx; subst hx; exact ⟨hwne, hwnosp⟩)
          hws'
        rw [joinSp_snoc curW hcw w] at this
        rw [this]
        simp
    · rw [if_neg h]
      have := ih [w] (lines ++ [ljust (joinSp curW) width])
        (by intro x hx; rw [List.mem_singleton] at hx; subst hx; exact ⟨hwne, hwnosp⟩)
        hws'
      rw [show joinSp [w] = w from rfl] at this
      rw [this]
      unfold ljust
      simp only [List.map_append, List.map_cons, List.map_nil, List.flatten_append]
      rw [pySplitText_joinSp_pad curW hcur]
      simp

/-- C5: the wrap loop implements exactly the specification's greedy
rule — a word joins the running line exactly when line length plus one
separating space plus word length fits the width, otherwise the line is
closed right-padded to the width; words are never split, truncated or
merged (re-splitting the output recovers the input words exactly); a
word longer than the column width is placed alone on its own line
without truncation. -/
theorem C5_greedy_word_wrap (text : String) (width : Int) :
    (∀ (ws : List String) (cur : String) (lines : List String),
      wrapLoop width ws cur lines = specGreedyWrap width ws cur lines)
    ∧ ((format_for_column text width).map pySplitText).flatten = pySplitText text
    ∧ (∀ w ∈ pySplitText text, width < (w.length : Int) →
        w ∈ format_for_column text width) := by
    refine ⟨fun ws cur lines => wrapLoop_eq_specGreedyWrap width ws cur lines, ?_, ?_⟩
    · have := wrapLoop_words width (pySplitText text) [] []
        (by intro x hx; simp at hx) (pySplitText_good text)
      rw [show joinSp [] = "" from rfl] at this
      unfold format_for_column
      rw [this]
      simp
    · intro w hw hlong
      unfold format_for_column
      exact wrapLoop_long_word_mem width (pySplitText text) "" [] w hw
        (pySplitText_good text w hw).1 hlong

/-- Witness for C5 at a text whose first word exceeds the width. -/
theorem C5_greedy_word_wrap_witness :
    ((format_for_column "supercalifragilistic a b" 10).map pySplitText).flatten =
      pySplitText "supercalifragilistic a b"
    ∧ "supercalifragilistic" ∈ format_for_column "supercalifragilistic a b" 10 :=
  ⟨(C5_greedy_word_wrap "supercalifragilistic a b" 10).2.1,
   (C5_greedy_word_wrap "supercalifragilistic a b" 10).2.2
     "supercalifragilistic" (by decide) (by decide)⟩

/-- The length of a left-justified string is the maximum of the width
and the string's own length. -/
theorem ljust_length (s : String) (w : Int) :
    ((ljust s w).length : Int) = max (s.length : Int) w := by
  unfold ljust
  rw [String.length_append]
  have hm : (String.mk (List.replicate (w - (s.length : Int)).toNat ' ')).length
      = (w - (s.length : Int)).toNat := by
    show (List.replicate (w - (s.length : Int)).toNat ' ').length
      = (w - (s.length : Int)).toNat
    simp
  rw [hm]
  omega

/-- A blank padding line has exactly the column width (when the width
is non-negative). -/
theorem blankLine_length (w : Int) (h : 0 ≤ w) :
    ((blankLine w).length : Int) = w := by
  unfold blankLine
  have hm : (String.mk (List.replicate w.toNat ' ')).length = w.toNat := by
    show (List.replicate w.toNat ' ').length = w.toNat
    simp
  rw [hm]
  omega

/-- Every line emitted by the wrap loop either has exactly the column
width or is a single over-wide input word kept untruncated. -/
theorem wrapLoop_line_prop (W : List String) (width : Int) (_h0 : 0 ≤ width) :
    ∀ (ws : List String) (cur : String) (lines : List String),
      (∀ l ∈ lines,
        (l.length : Int) = width ∨ (l ∈ W ∧ width < (l.length : Int))) →
      ((cur.length : Int) ≤ width ∨ (cur ∈ W ∧ width < (cur.length : Int))) →
      (∀ w ∈ ws, w ∈ W) →
      ∀ l ∈ wrapLoop width ws cur lines,
        (l.length : Int) = width ∨ (l ∈ W ∧ width < (l.length : Int)) := by
  intro ws
  induction ws with
  | nil =>
    intro cur lines hlines hcur _ l hl
    unfold wrapLoop at hl
    by_cases h : cur = ""
    · rw [if_pos h] at hl; exact hlines l hl
    · rw [if_neg h] at hl
      rcases List.mem_append.mp hl with hl | hl
      · exact hlines l hl
      · rw [List.mem_singleton] at hl; subst hl
        rcases hcur with hc | ⟨hmem, hlong⟩
        · left; rw [ljust_length]; omega
        · right; rw [ljust_of_le (le_of_lt hlong)]; exact ⟨hmem, hlong⟩
  | cons w ws ih =>
    intro cur lines hlines hcur hsub l hl
    unfold wrapLoop at hl
    have hwW : w ∈ W := hsub w (List.mem_cons_self w ws)
    have hsub' : ∀ x ∈ ws, x ∈ W := fun x hx => hsub x (List.mem_cons_of_mem _ hx)
    by_cases h : (cur.length : Int) + (w.length : Int) + 1 ≤ width
    · rw [if_pos h] at hl
      by_cases hc : cur = ""
      · rw [if_pos hc] at hl
        refine ih w lines hlines (Or.inl ?_) hsub' l hl
        subst hc
        have hz : ("" : String).length = 0 := rfl
        rw [hz] at h
        omega
      · rw [if_neg hc] at hl
        refine ih (cur ++ " " ++ w) lines hlines (Or.inl ?_) hsub' l hl
        rw [String.length_append, String.length_append]
        have hsp : (" " : String).length = 1 := rfl
        rw [hsp]
        push_cast
        omega
    · rw [if_neg h] at hl
      refine ih w (lines ++ [ljust cur width]) ?_ ?_ hsub' l hl
      · intro l' hl'
        rcases List.mem_append.mp hl' with hl' | hl'
        · exact hlines l' hl'
        · rw [List.mem_singleton] at hl'; subst hl'
          rcases hcur with hc | ⟨hmem, hlong⟩
          · left; rw [ljust_length]; omega
          · right; rw [ljust_of_le (le_of_lt hlong)]; exact ⟨hmem, hlong⟩
      · rcases le_or_lt (w.length : Int) width with hw | hw
        · exact Or.inl hw
        · exact Or.inr ⟨hwW, hw⟩

set_option maxRecDepth 4000 in
/-- C6 (counterexample): for total width 3 the computed column width is
the negative number `3 / 3 - 2 = -1` (Python integer arithmetic), and
the rendered blank line `""` has length `0 ≠ -1` while holding no
overflow word — so the claim does not hold for arbitrary total widths. -/
theorem C6_exact_width_counterexample :
    ¬ (∀ l ∈ (print_side_by_side "a" "" "" (some 3)).1,
        (l.length : Int) = ((get_terminal_width (some 3) : Int) / 3 - 2)
        ∨ (l ∈ pySplitText "a"
            ∧ ((get_terminal_width (some 3) : Int) / 3 - 2) < (l.length : Int))) := by
  decide

/-- C6 (amended): the three rendered columns always have equal height
(the maximum of the three wrapped heights, shorter columns padded with
blank lines); the fixed default width is 120 when the terminal width is
unavailable; and whenever the total width is at least 6 — so that the
computed column width `total/3 - 2` is non-negative — every rendered
column line has length exactly the computed column width except a line
holding a single over-wide word of its own text. -/
theorem C6_equal_columns (t1 t2 t3 : String) (term : Option Nat) :
    (print_side_by_side t1 t2 t3 term).1.length =
        (print_side_by_side t1 t2 t3 term).2.1.length
    ∧ (print_side_by_side t1 t2 t3 term).1.length =
        (print_side_by_side t1 t2 t3 term).2.2.length
    ∧ get_terminal_width none = 120
    ∧ (6 ≤ get_terminal_width term →
        (∀ l ∈ (print_side_by_side t1 t2 t3 term).1,
          (l.length : Int) = ((get_terminal_width term : Int) / 3 - 2)
          ∨ (l ∈ pySplitText t1
              ∧ ((get_terminal_width term : Int) / 3 - 2) < (l.length : Int)))
        ∧ (∀ l ∈ (print_side_by_side t1 t2 t3 term).2.1,
          (l.length : Int) = ((get_terminal_width term : Int) / 3 - 2)
          ∨ (l ∈ pySplitText t2
              ∧ ((get_terminal_width term : Int) / 3 - 2) < (l.length : Int)))
        ∧ (∀ l ∈ (print_side_by_side t1 t2 t3 term).2.2,
          (l.length : Int) = ((get_terminal_width term : Int) / 3 - 2)
          ∨ (l ∈ pySplitText t3
              ∧ ((get_terminal_width term : Int) / 3 - 2) < (l.length : Int)))) := by
  simp only [print_side_by_side]
  refine ⟨?_, ?_, rfl, ?_⟩
  · simp only [List.length_append, List.length_replicate]
    omega
  · simp only [List.length_append, List.length_replicate]
    omega
  · intro htw
    have hcw : 0 ≤ (get_terminal_width term : Int) / 3 - 2 := by
      have h2 : (6 : Int) / 3 ≤ (get_terminal_width term : Int) / 3 :=
        Int.ediv_le_ediv (by omega) (by exact_mod_cast htw)
      omega
    refine ⟨?_, ?_, ?_⟩ <;>
    · intro l hl
      rcases List.mem_append.mp hl with hl | hl
      · exact wrapLoop_line_prop _ _ hcw _ "" []
          (by intro l' hl'; simp at hl')
          (Or.inl (by
            rw [show ((("" : String).length : Int)) = 0 from rfl]
            exact hcw))
          (fun x hx => hx) l hl
      · left
        have := List.eq_of_mem_replicate hl
        subst this
        exact blankLine_length _ hcw

/-- Witness for C6 at total width 9 (column width 1): the first
rendered line of the first column is the blank flush line `" "`, of
length exactly the computed column width. -/
theorem C6_equal_columns_witness :
    (print_side_by_side "ab cd" "x" "" (some 9)).1.length =
        (print_side_by_side "ab cd" "x" "" (some 9)).2.1.length
    ∧ (((" " : String).length : Int) = ((get_terminal_width (some 9) : Int) / 3 - 2)
       ∨ (" " ∈ pySplitText "ab cd"
           ∧ ((get_terminal_width (some 9) : Int) / 3 - 2) < ((" " : String).length : Int))) := by
  have h := C6_equal_columns "ab cd" "x" "" (some 9)
  exact ⟨h.1, (h.2.2.2 (by decide)).1 " " (by decide)⟩

/-! ### Extraction on well-formed marker text (claim C2) -/

/-- `chopLead` succeeds on an exact-pattern head. -/
theorem chopLead_append (p r : List Char) : chopLead p (p ++ r) = some r := by
  induction p with
  | nil => rfl
  | cons c p ih =>
    show chopLead (c :: p) (c :: (p ++ r)) = some r
    unfold chopLead
    rw [if_pos (by simp)]
    exact ih

/-- When `chopLead` succeeds, the input starts with the pattern. -/
theorem chopLead_some {p l r : List Char} (h : chopLead p l = some r) :
    l = p ++ r := by
  induction p generalizing l with
  | nil =>
    unfold chopLead at h
    exact Option.some.inj h
  | cons c p ih =>
    cases l with
    | nil => exact absurd h (by unfold chopLead; simp)
    | cons x l =>
      unfold chopLead at h
      by_cases hx : x = c
      · rw [if_pos (by simp [hx])] at h
        rw [hx, ih h]; rfl
      · rw [if_neg (by simp [hx])] at h
        exact absurd h (by simp)

/-- A digit is not whitespace. -/
theorem pyIsDigit_not_space {c : Char} (hd : pyIsDigit c = true) :
    pyIsSpace c = false := by
  by_contra hs
  rw [Bool.not_eq_false] at hs
  have hc : c = ' ' ∨ c = '\t' ∨ c = '\n' ∨ c = '\r' ∨ c = '\x0b' ∨ c = '\x0c' := by
    unfold pyIsSpace at hs
    simp only [Bool.or_eq_true, beq_iff_eq] at hs
    tauto
  rcases hc with rfl | rfl | rfl | rfl | rfl | rfl <;>
    exact absurd hd (by decide)

/-- `matchMarkerCore` after chopping the literal. -/
theorem matchMarkerCore_lead (R : List Char) :
    matchMarkerCore (questionWord ++ R) =
      (if (R.takeWhile pyIsSpace).isEmpty then none
       else
         match R.dropWhile pyIsSpace with
         | d :: ':' :: r => if pyIsDigit d then some r else none
         | _ => none) := by
  unfold matchMarkerCore
  rw [chopLead_append]

/-- The marker `QUESTION\s+\d:` matches at the head of a well-formed
segment, leaving the single space and the question body. -/
theorem matchMarkerCore_segment (d : Char) (q : String) (X : List Char)
    (hd : pyIsDigit d = true) :
    matchMarkerCore (questionSegment d q ++ X) =
      some (' ' :: (q.toList ++ '\n' :: X)) := by
  have hshape : questionSegment d q ++ X =
      questionWord ++ (' ' :: d :: ':' :: ' ' :: (q.toList ++ '\n' :: X)) := by
    unfold questionSegment
    simp [List.append_assoc]
  have htake : ((' ' :: d :: ':' :: ' ' :: (q.toList ++ '\n' :: X)).takeWhile
      pyIsSpace).isEmpty = false := by
    rw [List.takeWhile_cons, if_pos (by decide)]
    simp
  have hdrop : (' ' :: d :: ':' :: ' ' :: (q.toList ++ '\n' :: X)).dropWhile
      pyIsSpace = d :: ':' :: (' ' :: (q.toList ++ '\n' :: X)) := by
    rw [List.dropWhile_cons, if_pos (by decide), List.dropWhile_cons,
      if_neg (by simp [pyIsDigit_not_space hd])]
  rw [hshape, matchMarkerCore_lead, htake, hdrop]
  simp [hd]

/-- The full pattern head `QUESTION\s+(\d):\s+` matches at a
well-formed segment; the capture starts after the greedy whitespace
run. -/
theorem matchFullAt_segment (d : Char) (q : String) (X : List Char)
    (hd : pyIsDigit d = true) :
    matchFullAt (questionSegment d q ++ X) =
      some ((q.toList ++ '\n' :: X).dropWhile pyIsSpace) := by
  unfold matchFullAt
  rw [matchMarkerCore_segment d q X hd]
  simp only [if_pos (by decide : pyIsSpace ' ' = true)]
  rw [List.dropWhile_cons, if_pos (by decide)]

/-- The lookahead fails at a position that does not begin with `Q`. -/
theorem lookaheadQ_of_ne_Q {c : Char} (cs : List Char) (h : ¬ c = 'Q') :
    lookaheadQ (c :: cs) = false := by
  unfold lookaheadQ matchMarkerCore
  rw [show questionWord = 'Q' ::
    ['U', 'E', 'S', 'T', 'I', 'O', 'N'] from rfl]
  unfold chopLead
  rw [if_neg (by simp [h])]
  rfl

/-- The lookahead fails at the end of the text. -/
theorem lookaheadQ_nil : lookaheadQ [] = false := rfl

/-- If the lookahead matches, the position starts with `QUESTION`. -/
theorem lookaheadQ_starts {cs : List Char} (h : lookaheadQ cs = true) :
    ∃ t, cs = questionWord ++ t := by
  unfold lookaheadQ at h
  rw [Option.isSome_iff_exists] at h
  obtain ⟨r, hr⟩ := h
  unfold matchMarkerCore at hr
  cases hc : chopLead questionWord cs with
  | none => rw [hc] at hr; exact absurd hr (by simp)
  | some rest => exact ⟨rest, chopLead_some hc⟩

/-- The pattern starts itself followed by anything. -/
theorem startsWithSeq_self_append (pat : List Char) :
    ∀ t : List Char, startsWithSeq (pat ++ t) pat = true := by
  induction pat with
  | nil => intro t; rw [List.nil_append]; cases t <;> rfl
  | cons c p ih =>
    intro t
    show (c == c && startsWithSeq (p ++ t) p) = true
    simp [ih]

/-- A match at the head witnesses `containsSeq`. -/
theorem containsSeq_of_starts {l pat : List Char}
    (h : startsWithSeq l pat = true) : containsSeq l pat = true := by
  cases l with
  | nil => exact h
  | cons c cs =>
    show (startsWithSeq (c :: cs) pat || containsSeq cs pat) = true
    rw [h]
    rfl

/-- A pattern occurrence anywhere witnesses `containsSeq`. -/
theorem containsSeq_of_split (pat : List Char) :
    ∀ (u v l : List Char), l = u ++ (pat ++ v) → containsSeq l pat = true := by
  intro u
  induction u with
  | nil =>
    intro v l hl
    subst hl
    rw [List.nil_append]
    exact containsSeq_of_starts (startsWithSeq_self_append pat v)
  | cons c u ih =>
    intro v l hl
    subst hl
    show (startsWithSeq ((c :: u) ++ (pat ++ v)) pat
      || containsSeq (u ++ (pat ++ v)) pat) = true
    rw [ih v _ rfl]
    simp

/-- Inside a question body that never contains the literal `QUESTION`,
the lookahead marker cannot match: a match starting there would either
place the literal inside the body or make it span the newline. -/
theorem lookaheadQ_false_inside (l : List Char)
    (hno : containsSeq l questionWord = false)
    (s T : List Char) (hsub : ∃ u, l = u ++ s) :
    lookaheadQ (s ++ '\n' :: T) = false := by
  by_contra hla
  rw [Bool.not_eq_false] at hla
  obtain ⟨t, ht⟩ := lookaheadQ_starts hla
  obtain ⟨u, hu⟩ := hsub
  rcases List.append_eq_append_iff.mp ht with ⟨a', ha1, ha2⟩ | ⟨c', hc1, _⟩
  · cases a' with
    | nil =>
      rw [List.append_nil] at ha1
      have hc : containsSeq l questionWord = true :=
        containsSeq_of_split questionWord u [] l (by rw [hu, ha1]; simp)
      rw [hc] at hno
      exact Bool.noConfusion hno
    | cons x a'' =>
      rw [List.cons_append] at ha2
      injection ha2 with hx _
      have hnl : '\n' ∈ questionWord := by
        rw [ha1, ← hx]
        exact List.mem_append_right _ (List.mem_cons_self _ _)
      exact absurd hnl (by decide)
  · have hc : containsSeq l questionWord = true :=
      containsSeq_of_split questionWord u c' l (by rw [hu, hc1])
    rw [hc] at hno
    exact Bool.noConfusion hno

/-- The lazy capture is empty at a position where the lookahead
matches. -/
theorem captureSplit_stop {cs : List Char} (h : lookaheadQ cs = true) :
    captureSplit cs = ([], cs) := by
  cases cs with
  | nil => exact absurd h (by rw [lookaheadQ_nil]; simp)
  | cons c cs =>
    unfold captureSplit
    rw [if_pos (by simp [h])]

/-- Mid-text capture: with a marker match right after the newline and
no marker inside the body, the capture takes the body and its newline
and stops exactly at the next marker. -/
theorem captureSplit_mid {T : List Char} (hT : lookaheadQ T = true)
    (l : List Char) (hno : containsSeq l questionWord = false) :
    ∀ a : List Char, (∃ u, l = u ++ a) →
      captureSplit (a ++ '\n' :: T) = (a ++ ['\n'], T) := by
  intro a
  induction a with
  | nil =>
    intro _
    rw [List.nil_append]
    have hTne : T.isEmpty = false := by
      cases hc : T with
      | nil => rw [hc] at hT; exact absurd hT (by rw [lookaheadQ_nil]; simp)
      | cons x xs => simp
    unfold captureSplit
    rw [if_neg (by simp [lookaheadQ_of_ne_Q T (by decide : ¬ '\n' = 'Q'), hTne])]
    rw [captureSplit_stop hT]
    rfl
  | cons c a' ih =>
    rintro ⟨u, hu⟩
    rw [List.cons_append]
    have hla : lookaheadQ (c :: (a' ++ '\n' :: T)) = false := by
      have hin := lookaheadQ_false_inside l hno (c :: a') T ⟨u, hu⟩
      rwa [List.cons_append] at hin
    have hne2 : (a' ++ '\n' :: T).isEmpty = false := by cases a' <;> simp
    unfold captureSplit
    rw [if_neg (by simp [hla, hne2])]
    rw [ih ⟨u ++ [c], by rw [hu]; simp⟩]
    simp

/-- End-of-text capture: with no marker inside the body, the capture
takes the body and stops just before the final newline (the `$`
position). -/
theorem captureSplit_end (l : List Char)
    (hno : containsSeq l questionWord = false) :
    ∀ a : List Char, (∃ u, l = u ++ a) →
      captureSplit (a ++ ['\n']) = (a, ['\n']) := by
  intro a
  induction a with
  | nil =>
    intro _
    rw [List.nil_append]
    unfold captureSplit
    rw [if_pos (by simp [lookaheadQ_of_ne_Q ([] : List Char) (by decide : ¬ '\n' = 'Q')])]
  | cons c a' ih =>
    rintro ⟨u, hu⟩
    rw [List.cons_append]
    have hla : lookaheadQ (c :: (a' ++ '\n' :: [])) = false := by
      have hin := lookaheadQ_false_inside l hno (c :: a') [] ⟨u, hu⟩
      rwa [List.cons_append] at hin
    have hne2 : (a' ++ ['\n']).isEmpty = false := by cases a' <;> simp
    unfold captureSplit
    rw [if_neg (by simp [hla, hne2])]
    rw [ih ⟨u ++ [c], by rw [hu]; simp⟩]

/-- Scanning the empty text finds nothing, with any fuel. -/
theorem scanAux_nil (f : Nat) : scanAux f [] = [] := by cases f <;> rfl

/-- A marker match consumes at least the marker's own characters. -/
theorem matchMarkerCore_length {cs r : List Char}
    (h : matchMarkerCore cs = some r) : r.length + 10 ≤ cs.length := by
  cases hc : chopLead questionWord cs with
  | none =>
    unfold matchMarkerCore at h
    rw [hc] at h
    exact Option.noConfusion (show (none : Option (List Char)) = some r from h)
  | some rest =>
    have hcs : cs = questionWord ++ rest := chopLead_some hc
    rw [hcs, matchMarkerCore_lead] at h
    by_cases hemp : (rest.takeWhile pyIsSpace).isEmpty
    · rw [if_pos hemp] at h; exact absurd h (by simp)
    · rw [if_neg hemp] at h
      have htwne : rest.takeWhile pyIsSpace ≠ [] := by
        intro he; rw [he] at hemp; exact hemp rfl
      have hsplit : rest.length =
          (rest.takeWhile pyIsSpace).length + (rest.dropWhile pyIsSpace).length := by
        rw [← List.length_append, List.takeWhile_append_dropWhile]
      have htw1 : 1 ≤ (rest.takeWhile pyIsSpace).length :=
        List.length_pos.mpr htwne
      split at h
      · next d r' heq =>
        by_cases hdig : pyIsDigit d
        · rw [if_pos hdig] at h
          have hr : r' = r := Option.some.inj h
          have hrlen : r'.length = r.length := by rw [hr]
          have hlen : (rest.dropWhile pyIsSpace).length = r'.length + 2 := by
            rw [heq]; rfl
          have hqw : questionWord.length = 8 := rfl
          rw [hcs, List.length_append, hqw]
          omega
        · rw [if_neg hdig] at h; exact absurd h (by simp)
      · next => exact absurd h (by simp)

/-- A full-pattern match strictly shrinks the text. -/
theorem matchFullAt_length {cs r : List Char}
    (h : matchFullAt cs = some r) : r.length < cs.length := by
  unfold matchFullAt at h
  cases hm : matchMarkerCore cs with
  | none =>
    rw [hm] at h
    exact Option.noConfusion (show (none : Option (List Char)) = some r from h)
  | some r0 =>
    rw [hm] at h
    have hlen := matchMarkerCore_length hm
    cases r0 with
    | nil =>
      exact Option.noConfusion (show (none : Option (List Char)) = some r from h)
    | cons c t =>
      have h' : (if pyIsSpace c = true
          then some ((c :: t).dropWhile pyIsSpace) else none) = some r := h
      by_cases hsp : pyIsSpace c
      · rw [if_pos hsp] at h'
        have hr : r = (c :: t).dropWhile pyIsSpace := (Option.some.inj h').symm
        have h2 : r.length ≤ (c :: t).length := by
          rw [hr]; exact (List.dropWhile_suffix pyIsSpace).length_le
        simp only [List.length_cons] at h2 hlen
        omega
      · rw [if_neg hsp] at h'
        exact Option.noConfusion (show (none : Option (List Char)) = some r from h')

/-- The capture's remainder never grows. -/
theorem captureSplit_snd_length (cs : List Char) :
    (captureSplit cs).2.length ≤ cs.length := by
  induction cs with
  | nil => simp [captureSplit]
  | cons c cs ih =>
    unfold captureSplit
    by_cases h : (lookaheadQ (c :: cs) || (c == '\n' && cs.isEmpty)) = true
    · rw [if_pos h]
    · rw [if_neg h]
      rcases hcs : captureSplit cs with ⟨cap, rem⟩
      rw [hcs] at ih
      simp only [hcs]
      show rem.length ≤ (c :: cs).length
      simp only [List.length_cons] at ih ⊢
      omega

/-- The scan result does not depend on the fuel, once the fuel covers
the text length. -/
theorem scanAux_congr : ∀ (f1 : Nat) {f2 : Nat} {cs : List Char},
    cs.length ≤ f1 → cs.length ≤ f2 → scanAux f1 cs = scanAux f2 cs := by
  intro f1
  induction f1 with
  | zero =>
    intro f2 cs h1 _
    have : cs = [] := List.length_eq_zero.mp (Nat.le_zero.mp h1)
    subst this
    rw [scanAux_nil, scanAux_nil]
  | succ f1 ih =>
    intro f2 cs h1 h2
    cases cs with
    | nil => rw [scanAux_nil, scanAux_nil]
    | cons c cs' =>
      cases f2 with
      | zero => simp at h2
      | succ f2' =>
        simp only [List.length_cons] at h1 h2
        cases hm : matchFullAt (c :: cs') with
        | some rest =>
          have hrest := matchFullAt_length hm
          simp only [List.length_cons] at hrest
          rcases hcs : captureSplit rest with ⟨cap, rem⟩
          have hrem : rem.length ≤ rest.length := by
            have hsl := captureSplit_snd_length rest
            rw [hcs] at hsl
            exact hsl
          simp only [scanAux, hm]
          simp only [hcs]
          congr 1
          exact @ih f2' rem (by omega) (by omega)
        | none =>
          simp only [scanAux, hm]
          exact ih (by omega) (by omega)

/-- Unfolding one successful scan step at the text's head. -/
theorem primaryScan_cons_match {cs rest : List Char}
    (hm : matchFullAt cs = some rest) :
    primaryScan cs =
      pyStrip (captureSplit rest).1 :: primaryScan (captureSplit rest).2 := by
  have hlen := matchFullAt_length hm
  cases cs with
  | nil =>
    rw [show matchFullAt [] = none from rfl] at hm
    exact Option.noConfusion hm
  | cons c cs' =>
    unfold primaryScan
    rcases hcs : captureSplit rest with ⟨cap, rem⟩
    have hrem : rem.length ≤ rest.length := by
      have hsl := captureSplit_snd_length rest
      rw [hcs] at hsl
      exact hsl
    simp only [List.length_cons] at hlen
    simp only [List.length_cons, scanAux, hm]
    simp only [hcs]
    congr 1
    exact scanAux_congr cs'.length (by omega) (le_refl _)

/-- Unfolding one failed scan step at the text's head. -/
theorem primaryScan_cons_nomatch {c : Char} {cs : List Char}
    (hm : matchFullAt (c :: cs) = none) :
    primaryScan (c :: cs) = primaryScan cs := by
  unfold primaryScan
  simp only [List.length_cons, scanAux, hm]

/-- Stripping is unaffected by first dropping leading whitespace. -/
theorem pyStrip_dropWhile (l : List Char) :
    pyStrip (l.dropWhile pyIsSpace) = pyStrip l := by
  unfold pyStrip
  rw [List.dropWhile_idempotent]

/-- Stripping is unaffected by a trailing newline after the
left-stripped body. -/
theorem pyStrip_dropWhile_nl (l : List Char) :
    pyStrip (l.dropWhile pyIsSpace ++ ['\n']) = pyStrip l := by
  unfold pyStrip
  rw [List.dropWhile_append]
  by_cases he : ((l.dropWhile pyIsSpace).dropWhile pyIsSpace).isEmpty
  · rw [if_pos he]
    have h0 : l.dropWhile pyIsSpace = [] := by
      rw [List.dropWhile_idempotent] at he
      exact List.isEmpty_iff.mp he
    rw [h0]
    rfl
  · rw [if_neg he]
    rw [List.dropWhile_idempotent]
    rw [List.reverse_append]
    rw [show (['\n'] : List Char).reverse = ['\n'] from rfl]
    rw [show (['\n'] : List Char) ++ (l.dropWhile pyIsSpace).reverse =
      '\n' :: (l.dropWhile pyIsSpace).reverse from rfl]
    rw [List.dropWhile_cons, if_pos (by decide : pyIsSpace '\n' = true)]

/-- Unfolding one segment of the well-formed text. -/
theorem questionsText_cons (p : Char × String) (qs : List (Char × String)) :
    questionsText (p :: qs) = questionSegment p.1 p.2 ++ questionsText qs := by
  unfold questionsText
  rw [List.map_cons, List.flatten_cons]

/-- An all-whitespace body strips to nothing. -/
theorem pyStrip_of_dropWhile_empty {l : List Char}
    (h : l.dropWhile pyIsSpace = []) : pyStrip l = [] := by
  unfold pyStrip
  rw [h]
  rfl

/-- The primary regex pass on well-formed marker text returns exactly
the stripped question bodies, in document order. -/
theorem primaryScan_questionsText :
    ∀ qs : List (Char × String),
      (∀ p ∈ qs, pyIsDigit p.1 = true
        ∧ containsSeq p.2.toList questionWord = false) →
      primaryScan (questionsText qs) = qs.map fun p => pyStrip p.2.toList := by
  intro qs
  induction qs with
  | nil => intro _; rfl
  | cons p qs' ih =>
    intro h
    obtain ⟨hd, hq⟩ := h p (List.mem_cons_self p qs')
    have h' := fun x hx => h x (List.mem_cons_of_mem p hx)
    have hqsuffix : ∃ u, p.2.toList = u ++ p.2.toList.dropWhile pyIsSpace := by
      obtain ⟨u, hu⟩ :=
        (List.dropWhile_suffix pyIsSpace :
          p.2.toList.dropWhile pyIsSpace <:+ p.2.toList)
      exact ⟨u, hu.symm⟩
    rw [questionsText_cons]
    rw [primaryScan_cons_match (matchFullAt_segment p.1 p.2 (questionsText qs') hd)]
    rw [List.dropWhile_append]
    cases qs' with
    | nil =>
      by_cases hqe : (p.2.toList.dropWhile pyIsSpace).isEmpty
      · rw [if_pos hqe]
        rw [show questionsText ([] : List (Char × String)) = [] from rfl]
        rw [show List.dropWhile pyIsSpace ('\n' :: []) = [] from rfl]
        rw [show captureSplit [] = ([], []) from rfl]
        have hstrip : pyStrip p.2.toList = [] :=
          pyStrip_of_dropWhile_empty (List.isEmpty_iff.mp hqe)
        show pyStrip [] :: primaryScan [] = [pyStrip p.2.toList]
        rw [show pyStrip ([] : List Char) = [] from rfl,
          show primaryScan [] = [] from rfl, hstrip]
      · rw [if_neg hqe]
        rw [show questionsText ([] : List (Char × String)) = [] from rfl]
        rw [captureSplit_end p.2.toList hq _ hqsuffix]
        rw [show primaryScan ['\n'] = [] from rfl]
        rw [pyStrip_dropWhile]
        rfl
    | cons p2 qs'' =>
      obtain ⟨hd2, _⟩ := h' p2 (List.mem_cons_self p2 qs'')
      have hla : lookaheadQ (questionsText (p2 :: qs'')) = true := by
        rw [questionsText_cons]
        unfold lookaheadQ
        rw [matchMarkerCore_segment p2.1 p2.2 (questionsText qs'') hd2]
        rfl
      by_cases hqe : (p.2.toList.dropWhile pyIsSpace).isEmpty
      · rw [if_pos hqe]
        rw [List.dropWhile_cons, if_pos (by decide : pyIsSpace '\n' = true)]
        have hdT : (questionsText (p2 :: qs'')).dropWhile pyIsSpace =
            questionsText (p2 :: qs'') := by
          rw [questionsText_cons]
          have hcons : questionSegment p2.1 p2.2 ++ questionsText qs'' =
              'Q' :: (['U', 'E', 'S', 'T', 'I', 'O', 'N'] ++
                (' ' :: p2.1 :: ':' :: ' ' :: (p2.2.toList ++ ['\n'])) ++
                questionsText qs'') := by
            unfold questionSegment questionWord
            simp
          rw [hcons, List.dropWhile_cons,
            if_neg (by decide : ¬ pyIsSpace 'Q' = true), ← hcons]
        rw [hdT, captureSplit_stop hla]
        have hstrip : pyStrip p.2.toList = [] :=
          pyStrip_of_dropWhile_empty (List.isEmpty_iff.mp hqe)
        show pyStrip [] :: primaryScan (questionsText (p2 :: qs'')) = _
        rw [ih h']
        rw [show pyStrip ([] : List Char) = [] from rfl, ← hstrip]
        rfl
      · rw [if_neg hqe]
        rw [captureSplit_mid hla p.2.toList hq _ hqsuffix]
        show pyStrip (p.2.toList.dropWhile pyIsSpace ++ ['\n']) ::
          primaryScan (questionsText (p2 :: qs'')) = _
        rw [ih h', pyStrip_dropWhile_nl]
        rfl

/-- C2: on every well-formed marker text — question bodies introduced
by markers `QUESTION <digit>:` and not themselves containing the
literal `QUESTION` — extraction returns exactly the marked question
texts in document order, trimmed of surrounding whitespace, truncated
to the first three; in particular the three-question generation
`QUESTION 1: A?\nQUESTION 2: B?\nQUESTION 3: C?` yields
`["A?", "B?", "C?"]`. -/
theorem C2_marker_extraction :
    (∀ qs : List (Char × String),
      (∀ p ∈ qs, pyIsDigit p.1 = true
        ∧ containsSeq p.2.toList questionWord = false) →
      extract_research_questions (String.mk (questionsText qs)) =
        (qs.map fun p => String.mk (pyStrip p.2.toList)).take 3)
    ∧ extract_research_questions "QUESTION 1: A?\nQUESTION 2: B?\nQUESTION 3: C?" =
        ["A?", "B?", "C?"] := by
  constructor
  · intro qs h
    unfold extract_research_questions
    rw [show (String.mk (questionsText qs)).toList = questionsText qs from rfl]
    rw [primaryScan_questionsText qs h]
    cases qs with
    | nil => rfl
    | cons p qs' =>
      rw [show ((p :: qs').map fun x => pyStrip x.2.toList).isEmpty = false from rfl]
      simp only [Bool.false_eq_true, if_false]
      rw [List.map_take, List.map_map]
      rfl
  · decide

/-- Witness for C2 at a concrete two-question marker text. -/
theorem C2_marker_extraction_witness :
    extract_research_questions (String.mk (questionsText [('1', "A?"), ('2', "B?")])) =
      ([('1', "A?"), ('2', "B?")].map fun p => String.mk (pyStrip p.2.toList)).take 3 :=
  C2_marker_extraction.1 [('1', "A?"), ('2', "B?")] (by decide)

end Latent

